import Mathlib

/-
Verification of the transcript-cleaning and subtitle-assembly pipeline of
the video-translation repository.  The definitions below are a shallow
embedding of `Lambdafiles/TranslationSubtitlesLambda.py`:

  * `filter_low_confidence_items_and_segments` embeds the Python function of
    the same name (lines 16-51).  Floats are modelled as rationals; the JSON
    record `item["alternatives"][0]` is flattened into the `confidence` and
    `content` fields of `RecognizedItem` (every item produced by the
    recognizer carries exactly this shape, and the code always reads index 0).
  * `max_translated_characters` embeds the budget computation of line 94,
    with Python `int(...)` truncation modelled by `pyInt`.
  * `translationResult` embeds the response interpretation and fallback
    ladder of lines 164-191; `jaText` embeds the `translated_text or ""`
    of line 197; `buildSubtitles` embeds the per-segment assembly loop.
  * `handlerSegments` embeds the segment-selection logic of lines 75-86 on a
    JSON-like record with optional keys, where `Except.error` models a raised
    Python exception (KeyError / ValueError).
-/

/-- A recognized token.  `confidence` and `content` are the fields of
`alternatives[0]` in the source JSON; a missing confidence key is `none`. -/
structure RecognizedItem where
  id : ℕ
  type : String
  confidence : Option ℚ
  content : String
deriving DecidableEq

/-- A time-aligned segment.  `extra` stands for all further key-value pairs
of the JSON record, which the code never touches. -/
structure AudioSegment where
  items : List ℕ
  transcript : String
  start_time : ℚ
  end_time : ℚ
  extra : List (String × String)
deriving DecidableEq

/-- The `results` object of the transcription artifact, in the shape the
filter function requires (both keys present). -/
structure TranscriptResults where
  items : List RecognizedItem
  audio_segments : List AudioSegment
deriving DecidableEq

/-- The whole transcription artifact. -/
structure TranscriptData where
  results : TranscriptResults
deriving DecidableEq

/-- Python `str.strip()`: remove leading and trailing whitespace.  Modelled
structurally on the character list so that concrete inputs evaluate. -/
def pyStrip (s : String) : String :=
  ⟨((s.data.dropWhile Char.isWhitespace).reverse.dropWhile Char.isWhitespace).reverse⟩

/-- Python `str.lower()`, modelled structurally on the character list. -/
def pyLower (s : String) : String :=
  ⟨s.data.map Char.toLower⟩

/-- Effective confidence: `float(item["alternatives"][0].get("confidence", "1.0"))`. -/
def effectiveConfidence (i : RecognizedItem) : ℚ :=
  i.confidence.getD 1

/-- The condition of line 23-25 under which an item contributes its id to
`low_confidence_ids`. -/
def triggersExclusion (threshold : ℚ) (i : RecognizedItem) : Prop :=
  i.type = "pronunciation" ∧ effectiveConfidence i < threshold

instance (threshold : ℚ) (i : RecognizedItem) : Decidable (triggersExclusion threshold i) :=
  inferInstanceAs (Decidable (_ ∧ _))

/-- Step 1 of the Python function (lines 21-26): collect the ids of
low-confidence pronunciation items into a set. -/
def low_confidence_ids (items : List RecognizedItem) (threshold : ℚ) : Finset ℕ :=
  items.foldl (fun s i => if triggersExclusion threshold i then insert i.id s else s) ∅

/-- The inner loop of step 2 (lines 34-39): walk the id list of a segment,
keep ids that are not excluded and that resolve by lookup
(`next((i for i in items if i["id"] == item_id), None)`), collecting the
new id list and the word list in order. -/
def reconstructSeg (items : List RecognizedItem) (low : Finset ℕ) :
    List ℕ → List ℕ × List String
  | [] => ([], [])
  | item_id :: rest =>
    let r := reconstructSeg items low rest
    if item_id ∈ low then r
    else
      match items.find? (fun i => i.id == item_id) with
      | some matched => (item_id :: r.1, matched.content :: r.2)
      | none => r

/-- The rewrite of a single segment (lines 45-46): replace `items` and
`transcript`, leaving every other field alone. -/
def updateSeg (items : List RecognizedItem) (low : Finset ℕ) (seg : AudioSegment) :
    AudioSegment :=
  let r := reconstructSeg items low seg.items
  { seg with items := r.1, transcript := String.intercalate " " r.2 }

/-- Lines 30-47: rebuild one segment; return it only when the new transcript
is not empty after stripping (`if new_transcript.strip()`). -/
def processSeg (items : List RecognizedItem) (low : Finset ℕ) (seg : AudioSegment) :
    Option AudioSegment :=
  let r := reconstructSeg items low seg.items
  let new_transcript := String.intercalate " " r.2
  if (pyStrip new_transcript) ≠ "" then
    some { seg with items := r.1, transcript := new_transcript }
  else
    none

/-- The Python function `filter_low_confidence_items_and_segments`
(lines 16-51): collect low-confidence ids, rebuild every segment, and
overwrite `results["audio_segments"]` with the surviving segments. -/
def filter_low_confidence_items_and_segments (data : TranscriptData) (threshold : ℚ) :
    TranscriptData :=
  { data with
    results :=
      { items := data.results.items
        audio_segments :=
          data.results.audio_segments.filterMap
            (processSeg data.results.items
              (low_confidence_ids data.results.items threshold)) } }

/-- Python `int()` applied to a (real-valued) number: truncation toward zero. -/
def pyInt (q : ℚ) : ℤ :=
  if 0 ≤ q then ⌊q⌋ else ⌈q⌉

/-- The speech-rate constant 5.68 of line 94. -/
def speechRateK : ℚ := 568 / 100

/-- Line 94: `max_translated_characters = int((end_time - start_time) * 5.68)`. -/
def max_translated_characters (start_time end_time : ℚ) : ℤ :=
  pyInt ((end_time - start_time) * speechRateK)

/-- The literal filler-word list of line 188. -/
def fillerWords : List String :=
  ["um", "uh", "so", "well", "you know", "i mean",
   "uh,", "um,", "so,", "well,", "you know,", "i mean,"]

/-- The six base filler words; the claim describes the set as these words
with an optional trailing comma. -/
def fillerBase : List String :=
  ["um", "uh", "so", "well", "you know", "i mean"]

/-- The claim-side description of a filler match: the trimmed, lowercased
source text is a base filler word, optionally followed by a comma. -/
def matchesFillerSpec (s : String) : Prop :=
  ∃ w ∈ fillerBase, pyLower (pyStrip s) = w ∨ pyLower (pyStrip s) = w ++ ","

instance (s : String) : Decidable (matchesFillerSpec s) := by
  unfold matchesFillerSpec
  infer_instance

/-- The exception handler of lines 181-191: on any translation failure,
a filler-only source text maps to the ideographic-space placeholder and
anything else to the tagged error string. -/
def fallbackText (english_text : String) : String :=
  if pyLower (pyStrip english_text) ∈ fillerWords then "　"
  else "[TRANSLATION_ERROR] " ++ english_text

/-- One content block of a Claude response; the `text` key may be absent. -/
structure ContentBlock where
  text : Option String
deriving DecidableEq

/-- A parsed response body: an optional `error` key and the `content` list
(`response_body.get('content', [])` makes an absent key the empty list). -/
structure ResponseBody where
  error : Option String
  content : List ContentBlock
deriving DecidableEq

/-- Outcome of the Bedrock call: either the request itself raised, or a
response body was parsed. -/
inductive BedrockOutcome where
  | requestFailure
  | response (body : ResponseBody)

/-- Lines 168-176: interpret a parsed response body.  `none` models a raised
exception (error-shaped body, no content blocks, or a first block without a
`text` key); `some t` is the raw text of the first block. -/
def interpretResponse (b : ResponseBody) : Option String :=
  if b.error.isSome then none
  else
    match b.content with
    | [] => none
    | blk :: _ => blk.text

/-- Lines 139-191: the translated text recorded for a segment, as a function
of the source text and the outcome of the single Bedrock call.  Every raised
exception lands in `fallbackText`; a successful non-empty text is used
verbatim after trimming; a successful empty-after-trim text becomes the
placeholder character. -/
def translationResult (english_text : String) (o : BedrockOutcome) : String :=
  match o with
  | .requestFailure => fallbackText english_text
  | .response b =>
    match interpretResponse b with
    | none => fallbackText english_text
    | some t =>
      let translated_text := pyStrip t
      if translated_text = "" then "　" else translated_text

/-- Line 197: `'ja_text': translated_text or ""` (Python `or` on strings). -/
def jaText (translated_text : String) : String :=
  if translated_text = "" then "" else translated_text

/-- Predicate on outcomes: the call failed (request error, error-shaped
response, or malformed/unexpected response shape). -/
def isFailureOutcome : BedrockOutcome → Prop
  | .requestFailure => True
  | .response b => interpretResponse b = none

/-- One output subtitle record (lines 193-198). -/
structure Subtitle where
  start_time : ℚ
  end_time : ℚ
  text : String
  ja_text : String
deriving DecidableEq

/-- Lines 193-198: the record appended for one segment. -/
def mkSubtitle (start_time end_time : ℚ) (english_text : String)
    (o : BedrockOutcome) : Subtitle :=
  { start_time := start_time
    end_time := end_time
    text := english_text
    ja_text := jaText (translationResult english_text o) }

/-- The translation loop of lines 91-198 on the `audio_segments` path, with
the outcome of the n-th external call supplied by `oracle`. -/
def buildSubtitles (oracle : ℕ → BedrockOutcome) : ℕ → List AudioSegment → List Subtitle
  | _, [] => []
  | n, seg :: rest =>
    mkSubtitle seg.start_time seg.end_time seg.transcript (oracle n) ::
      buildSubtitles oracle (n + 1) rest

/-- The `results` object with optional keys, for the handler-level logic of
lines 16-18 and 75-86.  `audio` is the key the fallback branch actually
reads on line 83. -/
structure ResultsJson where
  items : Option (List RecognizedItem)
  audio_segments : Option (List AudioSegment)
  audio : Option (List AudioSegment)
deriving DecidableEq

/-- Lines 17-18 as executed on a record with optional keys: the filter
function subscripts `results["items"]` and then `results["audio_segments"]`
unconditionally, so an absent key raises (modelled as `Except.error`). -/
def filterStepJson (r : ResultsJson) (threshold : ℚ) : Except String ResultsJson :=
  match r.items, r.audio_segments with
  | none, _ => Except.error "KeyError: items"
  | some _, none => Except.error "KeyError: audio_segments"
  | some items, some segs =>
    let d := filter_low_confidence_items_and_segments ⟨⟨items, segs⟩⟩ threshold
    Except.ok { r with
      items := some d.results.items
      audio_segments := some d.results.audio_segments }

/-- Lines 80-86: choose the records to translate.  The `elif` branch for a
present `items` key reads `transcript_data['results']['audio']` on line 83. -/
def selectSegments (r : ResultsJson) : Except String (List AudioSegment) :=
  match r.audio_segments with
  | some segs => Except.ok segs
  | none =>
    match r.items with
    | some _ =>
      match r.audio with
      | some segs => Except.ok segs
      | none => Except.error "KeyError: audio"
    | none => Except.error "No valid segments found in transcribe results."

/-- The handler path from line 75 to line 86: the filter step runs first,
then segment selection. -/
def handlerSegments (r : ResultsJson) (threshold : ℚ) :
    Except String (List AudioSegment) :=
  (filterStepJson r threshold).bind selectSegments

/-- Boolean form of the per-id retention test of lines 35-37: the id is not
excluded and resolves by lookup. -/
def keepId (items : List RecognizedItem) (low : Finset ℕ) (n : ℕ) : Bool :=
  !(decide (n ∈ low)) && (items.find? (fun i => i.id == n)).isSome

/-- The word contributed by one id of a segment, if any: `none` when the id
is excluded or dangling. -/
def wordOf (items : List RecognizedItem) (low : Finset ℕ) (n : ℕ) : Option String :=
  if n ∈ low then none
  else (items.find? (fun i => i.id == n)).map (fun i => i.content)

/-- The content of the item an id resolves to, ignoring the exclusion set. -/
def contentOf (items : List RecognizedItem) (n : ℕ) : Option String :=
  (items.find? (fun i => i.id == n)).map (fun i => i.content)

/-- A concrete two-segment transcript used to evaluate the pipeline: item 2
is a low-confidence pronunciation, so segment one keeps only item 1 and
segment two loses its only word and is dropped. -/
def exData : TranscriptData :=
  ⟨⟨[{ id := 1, type := "pronunciation", confidence := some 1, content := "Hello" },
     { id := 2, type := "pronunciation", confidence := some 0, content := "ignored" }],
    [{ items := [1, 2], transcript := "Hello ignored", start_time := 0,
       end_time := 2, extra := [("speaker", "A")] },
     { items := [2], transcript := "ignored", start_time := 2,
       end_time := 3, extra := [] }]⟩⟩

/-- The segment surviving the pass over `exData`. -/
def exSurvivor : AudioSegment :=
  { items := [1], transcript := "Hello", start_time := 0,
    end_time := 2, extra := [("speaker", "A")] }

/-- A transcript with no low-confidence item at all, but with a stale
segment: its id list is empty while its `transcript` field still holds
text.  The pass drops the segment, so the pass is not a no-op here. -/
def exStaleData : TranscriptData :=
  ⟨⟨[], [{ items := [], transcript := "hello", start_time := 0,
           end_time := 1, extra := [] }]⟩⟩

lemma mem_foldl_insert_low (threshold : ℚ) (n : ℕ) :
    ∀ (l : List RecognizedItem) (s : Finset ℕ),
      n ∈ l.foldl (fun s i => if triggersExclusion threshold i then insert i.id s else s) s ↔
        n ∈ s ∨ ∃ i ∈ l, i.id = n ∧ triggersExclusion threshold i := by
  intro l
  induction l with
  | nil => simp
  | cons i rest ih =>
    intro s
    by_cases h : triggersExclusion threshold i
    · simp only [List.foldl_cons, if_pos h, ih, Finset.mem_insert, List.mem_cons]
      constructor
      · rintro ((rfl | hs) | hrest)
        · exact Or.inr ⟨i, Or.inl rfl, rfl, h⟩
        · exact Or.inl hs
        · obtain ⟨j, hj, hjn, hje⟩ := hrest
          exact Or.inr ⟨j, Or.inr hj, hjn, hje⟩
      · rintro (hs | ⟨j, (rfl | hj), hjn, hje⟩)
        · exact Or.inl (Or.inr hs)
        · exact Or.inl (Or.inl hjn.symm)
        · exact Or.inr ⟨j, hj, hjn, hje⟩
    · simp only [List.foldl_cons, if_neg h, ih, List.mem_cons]
      constructor
      · rintro (hs | ⟨j, hj, hjn, hje⟩)
        · exact Or.inl hs
        · exact Or.inr ⟨j, Or.inr hj, hjn, hje⟩
      · rintro (hs | ⟨j, (rfl | hj), hjn, hje⟩)
        · exact Or.inl hs
        · exact absurd hje h
        · exact Or.inr ⟨j, hj, hjn, hje⟩

/-- Membership in the excluded-id set, characterized declaratively. -/
lemma mem_low_confidence_ids (items : List RecognizedItem) (threshold : ℚ) (n : ℕ) :
    n ∈ low_confidence_ids items threshold ↔
      ∃ i ∈ items, i.id = n ∧ triggersExclusion threshold i := by
  unfold low_confidence_ids
  rw [mem_foldl_insert_low]
  simp

/-- The reconstruction loop, characterized as a filter paired with a
filterMap over the original id list. -/
lemma reconstructSeg_eq (items : List RecognizedItem) (low : Finset ℕ)
    (l : List ℕ) :
    reconstructSeg items low l =
      (l.filter (keepId items low), l.filterMap (wordOf items low)) := by
  induction l with
  | nil => rfl
  | cons n rest ih =>
    simp only [reconstructSeg, ih]
    by_cases h : n ∈ low
    · rw [if_pos h]
      simp [List.filter_cons, List.filterMap_cons, keepId, wordOf, h]
    · rw [if_neg h]
      cases hf : items.find? (fun i => i.id == n) with
      | none =>
        simp [List.filter_cons, List.filterMap_cons, keepId, wordOf, h, hf]
      | some m =>
        simp [List.filter_cons, List.filterMap_cons, keepId, wordOf, h, hf]

/-- Restricting to the retained ids does not change the collected words:
dropped ids contribute no word at all. -/
lemma filterMap_wordOf_filter (items : List RecognizedItem) (low : Finset ℕ)
    (l : List ℕ) :
    (l.filter (keepId items low)).filterMap (contentOf items) =
      l.filterMap (wordOf items low) := by
  induction l with
  | nil => rfl
  | cons n rest ih =>
    by_cases h : n ∈ low
    · have hk : keepId items low n = false := by simp [keepId, h]
      simp [List.filter_cons, List.filterMap_cons, hk, wordOf, h, ih]
    · cases hf : items.find? (fun i => i.id == n) with
      | none =>
        have hk : keepId items low n = false := by simp [keepId, h, hf]
        simp [List.filter_cons, List.filterMap_cons, hk, wordOf, h, hf, ih]
      | some m =>
        have hk : keepId items low n = true := by simp [keepId, h, hf]
        simp [List.filter_cons, List.filterMap_cons, hk, wordOf, contentOf, h, hf, ih]

/-- Unfolding of `processSeg` through `updateSeg`. -/
lemma processSeg_eq (items : List RecognizedItem) (low : Finset ℕ)
    (seg : AudioSegment) :
    processSeg items low seg =
      if pyStrip (updateSeg items low seg).transcript ≠ "" then
        some (updateSeg items low seg)
      else none := rfl

/-- What a surviving segment looks like. -/
lemma processSeg_some {items : List RecognizedItem} {low : Finset ℕ}
    {s s' : AudioSegment} (h : processSeg items low s = some s') :
    s' = updateSeg items low s ∧ pyStrip s'.transcript ≠ "" := by
  rw [processSeg_eq] at h
  by_cases hc : pyStrip (updateSeg items low s).transcript ≠ ""
  · rw [if_pos hc] at h
    obtain rfl : updateSeg items low s = s' := Option.some.inj h
    exact ⟨rfl, hc⟩
  · rw [if_neg hc] at h
    exact absurd h (Option.noConfusion)

/-- The whole segment pass is a map followed by a filter on the rebuilt
transcript. -/
lemma filterMap_processSeg (items : List RecognizedItem) (low : Finset ℕ)
    (segs : List AudioSegment) :
    segs.filterMap (processSeg items low) =
      (segs.map (updateSeg items low)).filter
        (fun s => !(pyStrip s.transcript == "")) := by
  induction segs with
  | nil => rfl
  | cons s rest ih =>
    simp only [List.filterMap_cons, List.map_cons, List.filter_cons]
    rw [processSeg_eq]
    by_cases hc : pyStrip (updateSeg items low s).transcript = ""
    · rw [if_neg (by simpa using hc)]
      simp [hc, ih]
    · rw [if_pos (by simpa using hc)]
      simp [hc, ih]

/-- A `filterMap` that returns each element unchanged is the identity. -/
lemma filterMap_id_of {α : Type} (f : α → Option α) :
    ∀ l : List α, (∀ x ∈ l, f x = some x) → l.filterMap f = l := by
  intro l
  induction l with
  | nil => intro _; rfl
  | cons x rest ih =>
    intro h
    rw [List.filterMap_cons, h x (List.mem_cons_self x rest),
      ih (fun y hy => h y (List.mem_cons_of_mem x hy))]

/-- Rebuilding an already rebuilt segment changes nothing. -/
lemma updateSeg_idem (items : List RecognizedItem) (low : Finset ℕ)
    (s : AudioSegment) :
    updateSeg items low (updateSeg items low s) = updateSeg items low s := by
  unfold updateSeg
  simp only [reconstructSeg_eq]
  refine AudioSegment.mk.injEq .. ▸ ?_
  refine ⟨?_, ?_, rfl, rfl, rfl⟩
  · rw [List.filter_filter]
    exact List.filter_congr (fun n _ => by cases keepId items low n <;> simp)
  · rw [← filterMap_wordOf_filter items low s.items]
    refine congrArg _ (List.filterMap_congr ?_)
    intro n hn
    have hk := List.of_mem_filter hn
    unfold keepId at hk
    have h1 : ¬ n ∈ low := by
      have := (Bool.and_eq_true _ _).mp hk
      simpa using this.1
    unfold wordOf contentOf
    rw [if_neg h1]

/-- C3: for start_time ≤ end_time the character budget equals
floor((end_time - start_time) * 5.68) exactly, is 0 when the endpoints
coincide, is monotonically non-decreasing in the duration, and equals 56 at
the concrete input (0.0, 10.0). -/
theorem budget_floor_monotone_zero (s e : ℚ) (h : s ≤ e) :
    max_translated_characters s e = ⌊(e - s) * speechRateK⌋ ∧
    (e = s → max_translated_characters s e = 0) ∧
    (∀ s' e' : ℚ, e - s ≤ e' - s' →
      max_translated_characters s e ≤ max_translated_characters s' e') ∧
    max_translated_characters 0 10 = 56 := by
  have hK : (0 : ℚ) ≤ speechRateK := by norm_num [speechRateK]
  have hdur : (0 : ℚ) ≤ e - s := by linarith
  have hfloor : max_translated_characters s e = ⌊(e - s) * speechRateK⌋ := by
    unfold max_translated_characters pyInt
    rw [if_pos (mul_nonneg hdur hK)]
  refine ⟨hfloor, ?_, ?_, ?_⟩
  · rintro rfl
    simp [max_translated_characters, pyInt]
  · intro s' e' hle
    have hdur' : (0 : ℚ) ≤ e' - s' := le_trans hdur hle
    have hfloor' : max_translated_characters s' e' = ⌊(e' - s') * speechRateK⌋ := by
      unfold max_translated_characters pyInt
      rw [if_pos (mul_nonneg hdur' hK)]
    rw [hfloor, hfloor']
    exact Int.floor_le_floor (mul_le_mul_of_nonneg_right hle hK)
  · unfold max_translated_characters pyInt speechRateK
    rw [if_pos (by norm_num)]
    rw [Int.floor_eq_iff]
    constructor <;> norm_num

theorem budget_witness : max_translated_characters 0 10 = 56 :=
  (budget_floor_monotone_zero 0 10 (by norm_num)).2.2.2

/-- C1 (amended): the excluded-id set is exactly the ids of items of kind
"pronunciation" whose effective confidence (missing confidence read as 1.0)
is strictly below the threshold; an item of any other kind never triggers
exclusion; and, provided the threshold is at most 1, an item with a missing
confidence value never triggers exclusion. -/
theorem confidence_filter_characterization (items : List RecognizedItem)
    (threshold : ℚ) :
    (∀ n : ℕ, n ∈ low_confidence_ids items threshold ↔
        ∃ i ∈ items, i.id = n ∧ triggersExclusion threshold i) ∧
    (∀ i : RecognizedItem, i.type ≠ "pronunciation" →
        ¬ triggersExclusion threshold i) ∧
    (threshold ≤ 1 → ∀ i : RecognizedItem, i.confidence = none →
        ¬ triggersExclusion threshold i) := by
  refine ⟨mem_low_confidence_ids items threshold, ?_, ?_⟩
  · intro i hne ⟨htype, _⟩
    exact hne htype
  · intro hth i hconf ⟨_, hlt⟩
    rw [effectiveConfidence, hconf, Option.getD_none] at hlt
    exact absurd (lt_of_lt_of_le hlt hth) (lt_irrefl 1)

/-- C1 counterexample: with threshold 2, a pronunciation item with a missing
confidence value (effective confidence 1.0) is marked for exclusion, so
"missing confidence implies never excluded" fails for thresholds above 1. -/
theorem confidence_filter_missing_conf_cex :
    (7 : ℕ) ∈ low_confidence_ids
      [{ id := 7, type := "pronunciation", confidence := none, content := "x" }] 2 := by
  decide

theorem confidence_filter_witness :
    (2 : ℕ) ∈ low_confidence_ids
        [{ id := 1, type := "pronunciation", confidence := some (9 / 10), content := "Hello" },
         { id := 2, type := "pronunciation", confidence := some (1 / 10), content := "ignored" },
         { id := 3, type := "punctuation", confidence := none, content := "." }] (1 / 4) ∧
    ¬ triggersExclusion (1 / 4)
        { id := 3, type := "punctuation", confidence := none, content := "." } ∧
    ¬ triggersExclusion (1 / 4)
        { id := 4, type := "pronunciation", confidence := none, content := "x" } := by
  have h := confidence_filter_characterization
    [{ id := 1, type := "pronunciation", confidence := some (9 / 10), content := "Hello" },
     { id := 2, type := "pronunciation", confidence := some (1 / 10), content := "ignored" },
     { id := 3, type := "punctuation", confidence := none, content := "." }] (1 / 4)
  refine ⟨(h.1 2).mpr ?_, h.2.1 _ (by decide), h.2.2 (by norm_num) _ rfl⟩
  refine ⟨{ id := 2, type := "pronunciation", confidence := some (1 / 10), content := "ignored" },
    by simp, rfl, ?_⟩
  constructor
  · rfl
  · norm_num [effectiveConfidence]

/-- C7: the degraded path for an artifact with `results.items` present but
`results.audio_segments` absent does not translate the items.  The filter
step raises first (it subscripts `results["audio_segments"]`
unconditionally), and even the selection branch on its own reads the
non-existent key `results["audio"]` instead of `results["items"]`.  Both
ends in a raised error, never in an items-based segment list. -/
theorem fallback_items_path_keyerror :
    handlerSegments
        { items := some [{ id := 1, type := "pronunciation",
                           confidence := some (9 / 10), content := "Hello" }],
          audio_segments := none, audio := none } (1 / 4) =
      Except.error "KeyError: audio_segments" ∧
    selectSegments
        { items := some [{ id := 1, type := "pronunciation",
                           confidence := some (9 / 10), content := "Hello" }],
          audio_segments := none, audio := none } =
      Except.error "KeyError: audio" :=
  ⟨rfl, rfl⟩

/-- C2: every segment surviving the pass comes from an input segment; its
new id list is exactly the original ids that are neither excluded nor
dangling, every retained id resolves by lookup, and the new transcript is
the space-joined content of the retained items in original order. -/
theorem reconstructed_segment_spec (d : TranscriptData) (t : ℚ)
    (s' : AudioSegment)
    (h : s' ∈ (filter_low_confidence_items_and_segments d t).results.audio_segments) :
    ∃ s ∈ d.results.audio_segments,
      s'.items = s.items.filter
        (keepId d.results.items (low_confidence_ids d.results.items t)) ∧
      (∀ n ∈ s'.items, (d.results.items.find? (fun i => i.id == n)).isSome) ∧
      s'.transcript =
        String.intercalate " " (s'.items.filterMap (contentOf d.results.items)) := by
  have h' : s' ∈ d.results.audio_segments.filterMap
      (processSeg d.results.items (low_confidence_ids d.results.items t)) := h
  obtain ⟨s, hs, hps⟩ := List.mem_filterMap.mp h'
  obtain ⟨rfl, -⟩ := processSeg_some hps
  refine ⟨s, hs, ?_, ?_, ?_⟩
  · show (updateSeg d.results.items (low_confidence_ids d.results.items t) s).items = _
    unfold updateSeg
    rw [reconstructSeg_eq]
  · intro n hn
    have hn' : n ∈ s.items.filter
        (keepId d.results.items (low_confidence_ids d.results.items t)) := by
      have he : (updateSeg d.results.items (low_confidence_ids d.results.items t) s).items
          = s.items.filter
            (keepId d.results.items (low_confidence_ids d.results.items t)) := by
        unfold updateSeg
        rw [reconstructSeg_eq]
      rwa [he] at hn
    have hk := List.of_mem_filter hn'
    exact ((Bool.and_eq_true _ _).mp hk).2
  · show (updateSeg d.results.items (low_confidence_ids d.results.items t) s).transcript = _
    have hitems : (updateSeg d.results.items (low_confidence_ids d.results.items t) s).items
        = s.items.filter (keepId d.results.items (low_confidence_ids d.results.items t)) := by
      unfold updateSeg
      rw [reconstructSeg_eq]
    rw [hitems]
    show String.intercalate " "
      (reconstructSeg d.results.items (low_confidence_ids d.results.items t) s.items).2 = _
    rw [reconstructSeg_eq, filterMap_wordOf_filter]

theorem reconstructed_witness :
    ∃ s ∈ exData.results.audio_segments,
      exSurvivor.items = s.items.filter
        (keepId exData.results.items (low_confidence_ids exData.results.items 1)) ∧
      (∀ n ∈ exSurvivor.items,
        (exData.results.items.find? (fun i => i.id == n)).isSome) ∧
      exSurvivor.transcript =
        String.intercalate " "
          (exSurvivor.items.filterMap (contentOf exData.results.items)) :=
  reconstructed_segment_spec exData 1 exSurvivor (by decide)

/-- C6: the output segment list is a subsequence of the rebuilt input
segments in original order, every output segment has a non-whitespace
transcript (no placeholder entries), a segment whose rebuilt transcript is
empty or whitespace-only contributes nothing, and the output count never
exceeds the input count. -/
theorem whitespace_segments_dropped (d : TranscriptData) (t : ℚ) :
    ((filter_low_confidence_items_and_segments d t).results.audio_segments).Sublist
        (d.results.audio_segments.map
          (updateSeg d.results.items (low_confidence_ids d.results.items t))) ∧
    (∀ s' ∈ (filter_low_confidence_items_and_segments d t).results.audio_segments,
        pyStrip s'.transcript ≠ "") ∧
    (∀ s ∈ d.results.audio_segments,
        pyStrip (updateSeg d.results.items (low_confidence_ids d.results.items t) s).transcript = "" →
        processSeg d.results.items (low_confidence_ids d.results.items t) s = none) ∧
    ((filter_low_confidence_items_and_segments d t).results.audio_segments).length ≤
        (d.results.audio_segments).length := by
  have hout : (filter_low_confidence_items_and_segments d t).results.audio_segments =
      (d.results.audio_segments.map
          (updateSeg d.results.items (low_confidence_ids d.results.items t))).filter
        (fun s => !(pyStrip s.transcript == "")) := by
    show d.results.audio_segments.filterMap _ = _
    exact filterMap_processSeg _ _ _
  refine ⟨?_, ?_, ?_, ?_⟩
  · rw [hout]
    exact List.filter_sublist _
  · intro s' hs'
    rw [hout] at hs'
    have := List.of_mem_filter hs'
    simpa using this
  · intro s _ h0
    rw [processSeg_eq, if_neg]
    simp [h0]
  · rw [hout]
    calc ((d.results.audio_segments.map _).filter _).length
        ≤ (d.results.audio_segments.map
            (updateSeg d.results.items (low_confidence_ids d.results.items t))).length :=
          List.length_filter_le _ _
      _ = (d.results.audio_segments).length := List.length_map _ _

theorem whitespace_witness :
    pyStrip exSurvivor.transcript ≠ "" ∧
    ((filter_low_confidence_items_and_segments exData 1).results.audio_segments).length ≤
      (exData.results.audio_segments).length :=
  have h := whitespace_segments_dropped exData 1
  ⟨h.2.1 exSurvivor (by decide), h.2.2.2⟩

/-- C9: the pass never changes `results.items`, and a surviving segment
keeps its `start_time`, `end_time` and every field other than `items` and
`transcript` from its input segment. -/
theorem filter_frame_effect (d : TranscriptData) (t : ℚ) :
    (filter_low_confidence_items_and_segments d t).results.items = d.results.items ∧
    ∀ s' ∈ (filter_low_confidence_items_and_segments d t).results.audio_segments,
      ∃ s ∈ d.results.audio_segments,
        s' = updateSeg d.results.items (low_confidence_ids d.results.items t) s ∧
        s'.start_time = s.start_time ∧ s'.end_time = s.end_time ∧
        s'.extra = s.extra := by
  refine ⟨rfl, ?_⟩
  intro s' hs'
  obtain ⟨s, hs, hps⟩ := List.mem_filterMap.mp hs'
  obtain ⟨rfl, -⟩ := processSeg_some hps
  exact ⟨s, hs, rfl, rfl, rfl, rfl⟩

theorem frame_witness :
    (filter_low_confidence_items_and_segments exData 1).results.items =
      exData.results.items ∧
    ∃ s ∈ exData.results.audio_segments,
      exSurvivor = updateSeg exData.results.items
        (low_confidence_ids exData.results.items 1) s ∧
      exSurvivor.start_time = s.start_time ∧ exSurvivor.end_time = s.end_time ∧
      exSurvivor.extra = s.extra :=
  have h := filter_frame_effect exData 1
  ⟨h.1, h.2 exSurvivor (by decide)⟩

lemma mem_fillerWords_iff (u : String) :
    u ∈ fillerWords ↔ ∃ w ∈ fillerBase, u = w ∨ u = w ++ "," := by
  constructor
  · intro h
    simp only [fillerWords, List.mem_cons, List.not_mem_nil, or_false] at h
    rcases h with rfl | rfl | rfl | rfl | rfl | rfl | rfl | rfl | rfl | rfl | rfl | rfl <;>
      decide
  · rintro ⟨w, hw, h⟩
    simp only [fillerBase, List.mem_cons, List.not_mem_nil, or_false] at hw
    rcases hw with rfl | rfl | rfl | rfl | rfl | rfl <;> rcases h with rfl | rfl <;> decide

lemma translationResult_some (text : String) {b : ResponseBody} {t : String}
    (hi : interpretResponse b = some t) :
    translationResult text (BedrockOutcome.response b) =
      if pyStrip t = "" then "　" else pyStrip t := by
  show (match interpretResponse b with
        | none => fallbackText text
        | some u =>
          let translated_text := pyStrip u
          if translated_text = "" then "　" else translated_text) = _
  rw [hi]

lemma translationResult_failure (text : String) (o : BedrockOutcome)
    (hfail : isFailureOutcome o) :
    translationResult text o = fallbackText text := by
  cases o with
  | requestFailure => rfl
  | response b =>
    have hb : interpretResponse b = none := hfail
    show (match interpretResponse b with
          | none => fallbackText text
          | some u =>
            let translated_text := pyStrip u
            if translated_text = "" then "　" else translated_text) = _
    rw [hb]

lemma fallbackText_ne_empty (text : String) : fallbackText text ≠ "" := by
  unfold fallbackText
  by_cases h : pyLower (pyStrip text) ∈ fillerWords
  · rw [if_pos h]
    decide
  · rw [if_neg h]
    intro hc
    have hlen := congrArg String.length hc
    rw [String.length_append] at hlen
    have h20 : ("[TRANSLATION_ERROR] " : String).length = 20 := by decide
    rw [h20] at hlen
    simp at hlen

lemma translationResult_ne_empty (text : String) (o : BedrockOutcome) :
    translationResult text o ≠ "" := by
  cases o with
  | requestFailure => exact fallbackText_ne_empty text
  | response b =>
    cases hi : interpretResponse b with
    | none =>
      rw [translationResult_failure text (BedrockOutcome.response b) hi]
      exact fallbackText_ne_empty text
    | some t =>
      rw [translationResult_some text hi]
      by_cases he : pyStrip t = ""
      · rw [if_pos he]
        decide
      · rw [if_neg he]
        exact he

lemma length_pos_of_ne_empty (s : String) (h : s ≠ "") : 0 < s.length := by
  cases s with
  | mk data =>
    cases data with
    | nil => exact absurd rfl h
    | cons c cs => simp [String.length]

/-- C4 (confirmed): under any translation failure, filler-only source text
(a base filler word after stripping and lowercasing, with an optional
trailing comma) yields the placeholder character and never the tagged
error string, while any other source text yields exactly the tagged error
string containing the untranslated source; the function is total, so the
pipeline never aborts. -/
theorem translation_failure_fallback (text : String) (o : BedrockOutcome)
    (hfail : isFailureOutcome o) :
    (matchesFillerSpec text →
      translationResult text o = "　" ∧
      translationResult text o ≠ "[TRANSLATION_ERROR] " ++ text) ∧
    (¬ matchesFillerSpec text →
      translationResult text o = "[TRANSLATION_ERROR] " ++ text) := by
  have hres : translationResult text o = fallbackText text :=
    translationResult_failure text o hfail
  constructor
  · intro hm
    have hmem : pyLower (pyStrip text) ∈ fillerWords := (mem_fillerWords_iff _).mpr hm
    rw [hres]
    unfold fallbackText
    rw [if_pos hmem]
    refine ⟨rfl, ?_⟩
    intro hcontra
    have hlen := congrArg String.length hcontra
    rw [String.length_append] at hlen
    have h20 : ("[TRANSLATION_ERROR] " : String).length = 20 := by decide
    have h1 : ("　" : String).length = 1 := by decide
    rw [h20, h1] at hlen
    omega
  · intro hm
    have hmem : pyLower (pyStrip text) ∉ fillerWords := fun hc =>
      hm ((mem_fillerWords_iff _).mp hc)
    rw [hres]
    unfold fallbackText
    rw [if_neg hmem]

theorem translation_failure_witness :
    translationResult "um," BedrockOutcome.requestFailure = "　" ∧
    translationResult "hello" BedrockOutcome.requestFailure =
      "[TRANSLATION_ERROR] " ++ "hello" :=
  have h1 := translation_failure_fallback "um," BedrockOutcome.requestFailure trivial
  have h2 := translation_failure_fallback "hello" BedrockOutcome.requestFailure trivial
  ⟨(h1.1 (by decide)).1, h2.2 (by decide)⟩

/-- C5 (confirmed): a successful call whose returned text is empty after
stripping records the single ideographic-space placeholder character, so
the entry is non-empty. -/
theorem empty_translation_placeholder (text : String) (b : ResponseBody)
    (t : String) (hok : interpretResponse b = some t)
    (hempty : pyStrip t = "") :
    translationResult text (BedrockOutcome.response b) = "　" ∧
    ("　" : String).length = 1 := by
  rw [translationResult_some text hok, if_pos hempty]
  exact ⟨rfl, by decide⟩

theorem empty_translation_witness :
    translationResult "um"
        (BedrockOutcome.response { error := none, content := [{ text := some "  " }] }) =
      "　" ∧ ("　" : String).length = 1 :=
  empty_translation_placeholder "um" { error := none, content := [{ text := some "  " }] }
    "  " rfl (by decide)

/-- C10 (confirmed): every subtitle produced by the assembly loop has a
non-empty `ja_text`, whatever the outcome of each translation call. -/
theorem ja_text_always_nonempty (oracle : ℕ → BedrockOutcome) (n : ℕ)
    (segs : List AudioSegment) (sub : Subtitle)
    (h : sub ∈ buildSubtitles oracle n segs) :
    0 < sub.ja_text.length := by
  induction segs generalizing n with
  | nil => exact absurd h (List.not_mem_nil sub)
  | cons s rest ih =>
    rcases List.mem_cons.mp h with rfl | h'
    · show 0 < (jaText (translationResult s.transcript (oracle n))).length
      have hne := translationResult_ne_empty s.transcript (oracle n)
      unfold jaText
      rw [if_neg hne]
      exact length_pos_of_ne_empty _ hne
    · exact ih (n + 1) h'

theorem ja_text_witness :
    0 < (mkSubtitle 0 2 "Hello" BedrockOutcome.requestFailure).ja_text.length :=
  ja_text_always_nonempty (fun _ => BedrockOutcome.requestFailure) 0
    [{ items := [1], transcript := "Hello", start_time := 0, end_time := 2, extra := [] }]
    (mkSubtitle 0 2 "Hello" BedrockOutcome.requestFailure) (by decide)

/-- C8 (amended): applying the filter-and-reconstruct pass to its own output
returns that output unchanged, for every transcript and threshold. -/
theorem filter_reconstruct_idempotent (d : TranscriptData) (t : ℚ) :
    filter_low_confidence_items_and_segments
        (filter_low_confidence_items_and_segments d t) t =
      filter_low_confidence_items_and_segments d t := by
  have key : ∀ s' ∈ d.results.audio_segments.filterMap
      (processSeg d.results.items (low_confidence_ids d.results.items t)),
      processSeg d.results.items (low_confidence_ids d.results.items t) s' = some s' := by
    intro s' hs'
    obtain ⟨s, hs, hps⟩ := List.mem_filterMap.mp hs'
    obtain ⟨rfl, hne⟩ := processSeg_some hps
    rw [processSeg_eq, updateSeg_idem]
    rw [if_pos hne]
  unfold filter_low_confidence_items_and_segments
  dsimp only
  rw [filterMap_id_of _ _ key]

/-- C8 counterexample: a transcript whose excluded-id set is empty (so no
pronunciation item below the threshold exists, let alone remains
referenced) on which the pass is not a no-op: the single segment has an
empty id list, so its rebuilt transcript is empty and the segment is
dropped. -/
theorem filter_idem_hypothesis_cex :
    low_confidence_ids exStaleData.results.items 1 = ∅ ∧
    filter_low_confidence_items_and_segments exStaleData 1 ≠ exStaleData :=
  ⟨rfl, by decide⟩
